import Mathlib

/-!
Verification of the configurafox document-transformation engine.

This file is a shallow embedding of the core of the repository:

* `src/treewalker.rs` — the recursive tree walker `walk`, the transformer
  interface `TreeWalker` (here `Transformer`), and the four concrete
  transformers `VariableReplacer`, `LinkReplacer`, `KatexReplacer`,
  `SyntaxHighlighter`, together with the helper functions `get_attr` and
  `deindent`.
* `src/resource_manager.rs` — the `Resource` contract (an `identifier` string
  and an `output_path`).
* `src/lib.rs` — the `ConfigurafoxError` type.

Modelling conventions:

* Rust `Result<T, ConfigurafoxError>` together with the possibility of a
  panic (`unreachable!`, `expect`) is modelled by `RunResult`: `ok` for
  `Ok`, `err` for `Err`, and `panic` for an unwinding panic.  A panic is
  not an error value returned to the caller; keeping it as a separate
  constructor lets theorems distinguish the two.
* The Rust `walk` mutates a `Vec<Node>` in place; here it is a function from
  the input node list to the resulting node list.  Its recursion into the
  children of freshly produced replacement nodes is not structurally
  decreasing (a transformer may output a larger tree), so the embedding
  takes an explicit `fuel` bound on the recursion depth; `none` means the
  bound was exhausted.  Every claim about `walk` is stated for executions
  within the bound.
* External crates (`pathdiff::diff_paths`, `katex::render_with_opts`,
  `syntect`, `html_editor::parse`) are not part of this repository; they
  enter the embedding as function parameters of the corresponding
  transformer, so the theorems hold for every behaviour of those engines.
* `HashMap` iteration (for `all_registered_files`) is modelled as a list of
  pairs iterated in list order; `HashMap::get` is modelled by association
  list lookup.  `treewalker.rs` binds the pairs as `(resource, _)`, so the
  registry is embedded as a list of `(Resource, path)` pairs.
* Rust `PathBuf` components may be non-UTF-8 byte sequences; a path is a
  list of components, each either a valid-UTF-8 `String` or an opaque
  invalid byte sequence.
-/

set_option maxHeartbeats 1000000

namespace Configurafox

/-- Error type from `src/lib.rs` (`ConfigurafoxError`).  Underlying library
errors (`HTMLParseError`, `std::io::Error`, `syntect::Error`) are opaque to
the core and carried as strings. -/
inductive ConfigurafoxError where
  | MalformedAttrs : String → String → ConfigurafoxError
  | MissingAttr : String → String → ConfigurafoxError
  | MissingBody : String → ConfigurafoxError
  | ParseHTMLError : String → String → ConfigurafoxError
  | IOError : String → ConfigurafoxError
  | SyntectError : String → ConfigurafoxError
  | Other : String → ConfigurafoxError
deriving DecidableEq

/-- Outcome of a fallible Rust computation: `Ok`, `Err`, or a panic
(`expect` / `unreachable!`), which unwinds instead of returning a value. -/
inductive RunResult (α : Type) where
  | ok : α → RunResult α
  | err : ConfigurafoxError → RunResult α
  | panic : String → RunResult α
deriving DecidableEq

def RunResult.map {α β : Type} (f : α → β) : RunResult α → RunResult β
  | .ok a => .ok (f a)
  | .err e => .err e
  | .panic m => .panic m

def RunResult.isErr {α : Type} : RunResult α → Bool
  | .err _ => true
  | _ => false

def RunResult.isPanic {α : Type} : RunResult α → Bool
  | .panic _ => true
  | _ => false

/-- The `html_editor::Node` tree: `Element { name, attrs, children }`,
`Text`, and `RawHTML` (inserted verbatim). -/
inductive Node where
  | Element : String → List (String × String) → List Node → Node
  | Text : String → Node
  | RawHTML : String → Node

mutual

def Node.decEq : (a b : Node) → Decidable (a = b)
  | .Element n1 as1 c1, .Element n2 as2 c2 =>
    match Node.decEqList c1 c2 with
    | .isTrue hc =>
      if hn : n1 = n2 then
        if ha : as1 = as2 then .isTrue (by rw [hn, ha, hc])
        else .isFalse (by intro h; injection h; contradiction)
      else .isFalse (by intro h; injection h; contradiction)
    | .isFalse hc => .isFalse (by intro h; injection h; contradiction)
  | .Element _ _ _, .Text _ => .isFalse (by intro h; exact Node.noConfusion h)
  | .Element _ _ _, .RawHTML _ => .isFalse (by intro h; exact Node.noConfusion h)
  | .Text _, .Element _ _ _ => .isFalse (by intro h; exact Node.noConfusion h)
  | .Text s1, .Text s2 =>
    if h : s1 = s2 then .isTrue (by rw [h])
    else .isFalse (by intro he; injection he; contradiction)
  | .Text _, .RawHTML _ => .isFalse (by intro h; exact Node.noConfusion h)
  | .RawHTML _, .Element _ _ _ => .isFalse (by intro h; exact Node.noConfusion h)
  | .RawHTML _, .Text _ => .isFalse (by intro h; exact Node.noConfusion h)
  | .RawHTML s1, .RawHTML s2 =>
    if h : s1 = s2 then .isTrue (by rw [h])
    else .isFalse (by intro he; injection he; contradiction)

def Node.decEqList : (a b : List Node) → Decidable (a = b)
  | [], [] => .isTrue rfl
  | [], _ :: _ => .isFalse (by intro h; exact List.noConfusion h)
  | _ :: _, [] => .isFalse (by intro h; exact List.noConfusion h)
  | x :: xs, y :: ys =>
    match Node.decEq x y, Node.decEqList xs ys with
    | .isTrue h1, .isTrue h2 => .isTrue (by rw [h1, h2])
    | .isFalse h1, _ => .isFalse (by intro h; injection h; contradiction)
    | .isTrue _, .isFalse h2 => .isFalse (by intro h; injection h; contradiction)

end

instance : DecidableEq Node := Node.decEq

def nodeIsElement : Node → Bool
  | .Element _ _ _ => true
  | _ => false

/-- A transformer (`trait TreeWalker` in `src/treewalker.rs`): a `matches`
predicate and a `replace` function.  The context type `γ` is abstract here;
the concrete `Context` appears below.  The `describe` method is omitted
(used only for logging). -/
structure Transformer (γ : Type) where
  matchesFn : String → List (String × String) → γ → Bool
  replace : String → List (String × String) → List Node → γ → RunResult (List Node)

/-- The inner `for replacer in replacers` loop of `walk`: try each
transformer in list order on an element; the first whose `matches` is true
has its `replace` output spliced in; if none matches, the element itself is
kept (`dom.push(...)`), here as a singleton splice. -/
def tryReplacers {γ : Type} (replacers : List (Transformer γ)) (name : String)
    (attrs : List (String × String)) (children : List Node) (ctx : γ) :
    RunResult (List Node) :=
  match replacers with
  | [] => .ok [Node.Element name attrs children]
  | r :: rs =>
    if r.matchesFn name attrs ctx then r.replace name attrs children ctx
    else tryReplacers rs name attrs children ctx

/-- The first transformer in list order whose `matches` returns true. -/
def firstMatch {γ : Type} (replacers : List (Transformer γ)) (name : String)
    (attrs : List (String × String)) (ctx : γ) : Option (Transformer γ) :=
  replacers.find? (fun r => r.matchesFn name attrs ctx)

/-- The first phase of `walk`: drain the current level and rebuild it.
Non-`Element` nodes are kept; an `Element` is handed to `tryReplacers`, and
the spliced-in output is never re-tested at this level. -/
def walkLevel {γ : Type} (replacers : List (Transformer γ)) (ctx : γ) :
    List Node → RunResult (List Node)
  | [] => .ok []
  | Node.Element name attrs children :: rest =>
    match tryReplacers replacers name attrs children ctx with
    | .ok res => (walkLevel replacers ctx rest).map (fun out => res ++ out)
    | .err e => .err e
    | .panic m => .panic m
  | other :: rest => (walkLevel replacers ctx rest).map (fun out => other :: out)

mutual

/-- `walk` from `src/treewalker.rs`: rebuild the current level
(`walkLevel`), then recurse into the children of every element of the
rebuilt level (`walkInto`).  `fuel` bounds the recursion depth; `none`
means the bound was exhausted. -/
def walk {γ : Type} (fuel : Nat) (replacers : List (Transformer γ)) (ctx : γ)
    (dom : List Node) : Option (RunResult (List Node)) :=
  match fuel with
  | 0 => none
  | fuel' + 1 =>
    match walkLevel replacers ctx dom with
    | .err e => some (.err e)
    | .panic m => some (.panic m)
    | .ok rebuilt => walkInto fuel' replacers ctx rebuilt
termination_by (fuel, 0)

/-- The second phase of `walk`: the `for el in dom` loop recursing into the
children of each element of the rebuilt level, in order. -/
def walkInto {γ : Type} (fuel : Nat) (replacers : List (Transformer γ)) (ctx : γ)
    (l : List Node) : Option (RunResult (List Node)) :=
  match l with
  | [] => some (.ok [])
  | Node.Element name attrs children :: rest =>
    match walk fuel replacers ctx children with
    | none => none
    | some (.err e) => some (.err e)
    | some (.panic m) => some (.panic m)
    | some (.ok children') =>
      match walkInto fuel replacers ctx rest with
      | none => none
      | some (.err e) => some (.err e)
      | some (.panic m) => some (.panic m)
      | some (.ok rest') => some (.ok (Node.Element name attrs children' :: rest'))
  | other :: rest =>
    match walkInto fuel replacers ctx rest with
    | none => none
    | some (.err e) => some (.err e)
    | some (.panic m) => some (.panic m)
    | some (.ok rest') => some (.ok (other :: rest'))
termination_by (fuel, l.length + 1)

end

/-! Paths and resources.  A `PathBuf` is a list of components; a component
is either valid UTF-8 (a `String`) or an opaque non-UTF-8 byte sequence
(possible for `OsString` on Unix). -/

inductive PComp where
  | valid : String → PComp
  | invalid : List Nat → PComp
deriving DecidableEq

/-- A relative filesystem path as an ordered list of components. -/
abbrev RPath := List PComp

/-- `Path::parent`: `None` for an empty (relative) path, otherwise the path
without its final component. -/
def pathParent (p : RPath) : Option RPath :=
  match p with
  | [] => none
  | _ => some p.dropLast

/-- `Path::to_str`: `Some` of the components joined with a separator iff
every component is valid UTF-8, else `None`. -/
def pathToStr (p : RPath) : Option String :=
  match p with
  | [] => some ("")
  | [PComp.valid s] => some s
  | PComp.valid s :: rest => (pathToStr rest).map (fun r => s ++ ("/") ++ r)
  | _ => none

/-- `Path::display`, lossy: invalid components render as the replacement
character.  Used only inside panic messages. -/
def pathDisplay (p : RPath) : String :=
  String.intercalate ("/") (p.map (fun c =>
    match c with
    | PComp.valid s => s
    | PComp.invalid _ => ("�")))

/-- The `Resource` trait of `src/resource_manager.rs`: a deterministic
`identifier()` string and an `output_path()`. -/
structure Resource where
  identifier : String
  outputPath : RPath
deriving DecidableEq

/-- The `Context` of `src/treewalker.rs`.  `resources` is the snapshot
returned by `ResourceManager::all_registered_files()`, as iterated by
`LinkReplacer` (pairs bound as `(resource, _)`); the opaque caller data
payload `data: &D` is omitted, as no transformer reads it. -/
structure Context where
  resource : Resource
  sourcePath : RPath
  resources : List (Resource × RPath)

/-- `str::starts_with` for a literal pattern, as kernel-reducible list
operations on the character data. -/
def strStartsWith (s p : String) : Bool :=
  p.data.isPrefixOf s.data

/-- Byte slicing `&x[n..]` for an ASCII prefix of length `n` (both sigils
are one ASCII byte, so byte and character indices coincide). -/
def strDrop (s : String) (n : Nat) : String :=
  String.mk (s.data.drop n)

/-- `get_attr` from `src/treewalker.rs`: the value of the first attribute
whose key equals `key`. -/
def get_attr (attrs : List (String × String)) (key : String) : Option String :=
  attrs.findSome? (fun kv => if kv.1 = key then some kv.2 else none)

/-- Shared shape of `attrs.into_iter().map(|(k, v)| Ok((k, f(v)?))).collect
::<Result<Vec<_>, _>>()`: map `f` over the attribute values, stopping at the
first error (or panic). -/
def mapAttrVals (f : String → RunResult String) :
    List (String × String) → RunResult (List (String × String))
  | [] => .ok []
  | (k, v) :: rest =>
    match f v with
    | .ok v' => (mapAttrVals f rest).map (fun r => (k, v') :: r)
    | .err e => .err e
    | .panic m => .panic m

/-- The `replace_var` closure of `VariableReplacer::replace`.  The
`HashMap<String, String>` is modelled as an association list looked up by
key. -/
def replace_var (vars : List (String × String)) (x : String) : RunResult String :=
  if !(strStartsWith x ("$")) then .ok x
  else
    match vars.lookup (strDrop x 1) with
    | none => .err (.Other ("Unknown variable " ++ x))
    | some v => .ok v

/-- `VariableReplacer` from `src/treewalker.rs`. -/
def VariableReplacer {γ : Type} (vars : List (String × String)) : Transformer γ :=
  { matchesFn := fun tag_name attrs _ctx =>
      strStartsWith tag_name ("$") || attrs.any (fun kv => strStartsWith kv.2 ("$"))
  , replace := fun tag_name attrs children _ctx =>
      if strStartsWith tag_name ("$") then
        (replace_var vars tag_name).map (fun v => [Node.Text v])
      else
        (mapAttrVals (replace_var vars) attrs).map
          (fun new_attrs => [Node.Element tag_name new_attrs children]) }

/-- The `replace_link` closure of `LinkReplacer::replace`.  `diff_paths` is
the external `pathdiff::diff_paths` function, taken as a parameter.  Both
`expect` calls of the source are modelled as panics. -/
def replace_link (resources : List (Resource × RPath)) (source_path : RPath)
    (diff_paths : RPath → RPath → Option RPath) (x : String) : RunResult String :=
  if !(strStartsWith x ("@")) then .ok x
  else
    let ident := strDrop x 1
    match (resources.find? (fun rp => rp.1.identifier == ident)).map (fun rp => rp.1) with
    | some resource =>
      let path := resource.outputPath
      let diffRes : RunResult RPath :=
        match pathParent source_path with
        | some source_dir =>
          match diff_paths path source_dir with
          | some d => .ok d
          | none => .panic ("Resource referenced (" ++ pathDisplay path ++
              ") could not be relativized from " ++ pathDisplay source_path)
        | none => .ok path
      match diffRes with
      | .ok diff =>
        match pathToStr diff with
        | some s => .ok s
        | none => .panic ("Invalid UTF-8 in path")
      | .err e => .err e
      | .panic m => .panic m
    | none => .err (.Other ("Unknown identifier: " ++ x))

/-- `LinkReplacer` from `src/treewalker.rs`, parameterized by the external
`pathdiff::diff_paths`. -/
def LinkReplacer (diff_paths : RPath → RPath → Option RPath) : Transformer Context :=
  { matchesFn := fun _tag_name attrs _ctx =>
      attrs.any (fun kv => strStartsWith kv.2 ("@"))
  , replace := fun tag_name attrs children ctx =>
      (mapAttrVals (replace_link ctx.resources ctx.sourcePath diff_paths) attrs).map
        (fun new_attrs => [Node.Element tag_name new_attrs children]) }

/-! Math rendering (`KatexReplacer`). -/

inductive KatexOutputType where
  | html
  | mathml
  | htmlAndMathml
deriving DecidableEq

/-- The options handed to `katex::render_with_opts`: built with
`output_type(Html)` and `trust(true)`, then `display_mode` set to true
only for the `katex` tag. -/
structure KatexOpts where
  outputType : KatexOutputType
  trust : Bool
  displayMode : Bool
deriving DecidableEq

def katexOptsFor (tag_name : String) : KatexOpts :=
  { outputType := .html, trust := true, displayMode := tag_name == ("katex") }

/-- Panic message of the `unreachable!("invalid tag {tag_name} for
KatexReplacer")` fall-through arm. -/
def katexUnreachableMsg (tag_name : String) : String :=
  "internal error: entered unreachable code: invalid tag " ++ tag_name ++
    " for KatexReplacer"

/-- `KatexReplacer` from `src/treewalker.rs`.  `render` is the external
`katex::render_with_opts`; its `Err` case is consumed by `.expect("meow")`,
i.e. a panic.  `katexVersion` is the external `katex::KATEX_VERSION`
string. -/
def KatexReplacer {γ : Type} (katexVersion : String)
    (render : String → KatexOpts → Option String) : Transformer γ :=
  { matchesFn := fun tag_name _attrs _ctx =>
      tag_name == ("$") || tag_name == ("katex") || tag_name == ("katex-prelude")
  , replace := fun tag_name _attrs children _ctx =>
      if tag_name == ("katex-prelude") then
        .ok [Node.Element ("link")
          [(("rel"), ("stylesheet")),
           (("href"), ("https://cdn.jsdelivr.net/npm/katex@") ++ katexVersion ++
             ("/dist/katex.min.css"))]
          []]
      else if tag_name == ("katex") || tag_name == ("$") then
        match children with
        | [Node.Text tex] =>
          match render tex (katexOptsFor tag_name) with
          | some rendered => .ok [Node.RawHTML rendered]
          | none => .panic ("meow")
        | _ => .err (.Other ("Katex: malformed body"))
      else .panic (katexUnreachableMsg tag_name) }

/-! `deindent` and its character-level helpers.  All string operations are
modelled on `List Char`; `rustIsWhitespace` covers the ASCII part of Rust's
`char::is_whitespace` (non-ASCII Unicode whitespace is not modelled). -/

def rustIsWhitespace (c : Char) : Bool :=
  c == ' ' || c == '\t' || c == '\n' || c == '\r' || c == '\x0b' || c == '\x0c'

/-- `str::trim_end`. -/
def trimEndWs (l : List Char) : List Char :=
  (l.reverse.dropWhile rustIsWhitespace).reverse

/-- `source.chars().take_while(|&c| c == ' ').count()`. -/
def countLeadingSpaces (l : List Char) : Nat :=
  (l.takeWhile (fun c => c == ' ')).length

/-- Split at every newline character (pieces do not contain the `'\n'`). -/
def splitNL : List Char → List (List Char)
  | [] => [[]]
  | c :: rest =>
    if c == '\n' then [] :: splitNL rest
    else
      match splitNL rest with
      | [] => [[c]]
      | p :: ps => (c :: p) :: ps

/-- Drop a single trailing `'\r'` (the `\r` of a `\r\n` line ending). -/
def stripTrailingCR (l : List Char) : List Char :=
  match l.getLast? with
  | some '\r' => l.dropLast
  | _ => l

/-- Post-process the pieces of `splitNL` the way `str::lines` does: every
piece that was terminated by a `'\n'` loses a trailing `'\r'`; the piece
after the last `'\n'` is kept as-is, except that an empty final piece
(trailing newline, or empty input) yields no line. -/
def stripCRall : List (List Char) → List (List Char)
  | [] => []
  | [p] => if p.isEmpty then [] else [p]
  | p :: q :: ps => stripTrailingCR p :: stripCRall (q :: ps)

/-- `str::lines`. -/
def rustLines (l : List Char) : List (List Char) :=
  stripCRall (splitNL l)

/-- `Vec::join("\n")`. -/
def joinNL : List (List Char) → List Char
  | [] => []
  | [x] => x
  | x :: q :: ps => x ++ '\n' :: joinNL (q :: ps)

/-- `x.strip_prefix(&prefix).unwrap_or(x)` for a run of `n` spaces. -/
def stripRun (n : Nat) (line : List Char) : List Char :=
  if (List.replicate n ' ').isPrefixOf line then line.drop n else line

/-- The line-mapping-and-joining tail of `deindent`, for a given measured
indentation `n`. -/
def deindentWith (l2 : List Char) (n : Nat) : List Char :=
  joinNL ((rustLines l2).map (stripRun n))

/-- `deindent` from `src/treewalker.rs`: `trim_start_matches("\n")` (drop
ALL leading newlines), `trim_end`, count the leading run of spaces, strip
that run from every line, join with newline. -/
def deindent (s : String) : String :=
  let l2 := trimEndWs (s.toList.dropWhile (fun c => c == '\n'))
  String.mk (deindentWith l2 (countLeadingSpaces l2))

/-- Modelled from the spec (claim C6 wording): identical pipeline except
that only a SINGLE leading newline is stripped, and the indentation run is
measured on the resulting first line.  Exists only to be compared with
`deindent`. -/
def deindentClaimed (s : String) : String :=
  let l1 := match s.toList with
            | '\n' :: rest => rest
            | l => l
  let l2 := trimEndWs l1
  String.mk (deindentWith l2 (countLeadingSpaces ((rustLines l2).headD [])))

/-- The amended description of `deindent`: strip ALL leading newlines, trim
trailing whitespace, measure the leading-space run of the resulting first
line, strip that run from every line, join with newline. -/
def deindentAmended (s : String) : String :=
  let l2 := trimEndWs (s.toList.dropWhile (fun c => c == '\n'))
  String.mk (deindentWith l2 (countLeadingSpaces ((rustLines l2).headD [])))

/-! Syntax highlighting. -/

structure SyntectColor where
  r : Nat
  g : Nat
  b : Nat
deriving DecidableEq

/-- A syntect theme, reduced to the one field the core reads:
`theme.settings.background`. -/
structure SyntectTheme where
  background : Option SyntectColor
deriving DecidableEq

def hexDigitChar (n : Nat) : Char :=
  if n < 10 then Char.ofNat (48 + n) else Char.ofNat (87 + n)

/-- `format!("{:02x}", byte)` for a `u8` value. -/
def hex2 (n : Nat) : String :=
  String.mk [hexDigitChar (n / 16 % 16), hexDigitChar (n % 16)]

/-- The external syntect and html_editor entry points used by
`SyntaxHighlighter::replace`, taken as parameters: syntax lookup by file
extension (the reference is an opaque token), the highlighting call, and
the re-parse of the generated fragment. -/
structure SyntectEnv where
  findByExtension : String → Option String
  highlight : String → String → SyntectTheme → Except String String
  parseHtml : String → Except String (List Node)

/-- Panic message of the bare `unreachable!()` fall-through arm of
`SyntaxHighlighter::replace`. -/
def shUnreachableMsg : String :=
  "internal error: entered unreachable code"

/-- `SyntaxHighlighter` from `src/treewalker.rs`.  `theme_set` models
`ThemeSet::themes` (a map from theme name to theme); `theme` is the active
theme name. -/
def SyntaxHighlighter {γ : Type} (env : SyntectEnv)
    (theme_set : List (String × SyntectTheme)) (theme : String) : Transformer γ :=
  { matchesFn := fun tag_name _attrs _ctx =>
      tag_name == ("code-hl") || tag_name == ("pre-hl")
  , replace := fun tag_name attrs children _ctx =>
      match children with
      | [Node.Text code_text0] =>
        let code_text := deindent code_text0
        match get_attr attrs ("lang") with
        | none => .err (.Other ("Missing lang= attribute"))
        | some lang =>
          match theme_set.lookup theme with
          | none => .err (.Other ("No such theme " ++ theme))
          | some th =>
            let background_color_style := th.background.map (fun col =>
              "background: #" ++ hex2 col.r ++ hex2 col.g ++ hex2 col.b ++ (";"))
            match env.findByExtension lang with
            | none => .err (.Other ("Unknown language " ++ lang))
            | some syn_ref =>
              match env.highlight code_text syn_ref th with
              | .error e => .err (.SyntectError e)
              | .ok html_str =>
                match env.parseHtml html_str with
                | .error e => .err (.ParseHTMLError ("<generated-syntect>") e)
                | .ok html_parsed =>
                  match html_parsed.head? with
                  | some (Node.Element nm attrs2 children2) =>
                    if nm != ("pre") then
                      .err (.Other ("Invalid html generated by syntect: " ++ html_str))
                    else
                      let attrs3 := match background_color_style with
                        | some bg => attrs2 ++ [(("style"), bg)]
                        | none => attrs2
                      if tag_name == ("pre-hl") then
                        .ok [Node.Element ("pre") attrs3 children2]
                      else if tag_name == ("code-hl") then
                        .ok [Node.Element ("code") attrs3 children2]
                      else .panic shUnreachableMsg
                  | _ => .err (.Other ("Invalid html generated by syntect: " ++ html_str))
      | _ => .err (.Other (tag_name ++ " must contain only text children")) }

/-! The clean-tree predicate and depth measure used by the idempotence
claim. -/

def reservedTags : List String :=
  [("$"), ("katex"), ("katex-prelude"), ("code-hl"), ("pre-hl")]

mutual

/-- No sigil-prefixed tag name or attribute value, no reserved tag name,
recursively. -/
def cleanNode : Node → Bool
  | .Element name attrs children =>
    !(strStartsWith name ("$")) && !(strStartsWith name ("@")) &&
    !(reservedTags.contains name) &&
    attrs.all (fun kv => !(strStartsWith kv.2 ("$")) && !(strStartsWith kv.2 ("@"))) &&
    cleanNodes children
  | _ => true

def cleanNodes : List Node → Bool
  | [] => true
  | n :: ns => cleanNode n && cleanNodes ns

end

mutual

def nodeDepth : Node → Nat
  | .Element _ _ children => nodesDepth children + 1
  | _ => 0

def nodesDepth : List Node → Nat
  | [] => 0
  | n :: ns => max (nodeDepth n) (nodesDepth ns)

end

/-- A transformer built by this repository (any parameters): one of the
four concrete transformers of `src/treewalker.rs`. -/
def RepoTransformer (t : Transformer Context) : Prop :=
  (∃ vars, t = VariableReplacer vars) ∨
  (∃ dp, t = LinkReplacer dp) ∨
  (∃ ver render, t = KatexReplacer ver render) ∨
  (∃ env ts th, t = SyntaxHighlighter env ts th)

/-! Helper lemmas shared by the claim theorems. -/

/-- `List.find?` returns the first element (in list order) satisfying the
predicate. -/
theorem find_first_spec {α : Type} (p : α → Bool) :
    ∀ (l : List α) (a : α), l.find? p = some a →
      ∃ i : Nat, l[i]? = some a ∧ p a = true ∧
        ∀ j : Nat, j < i → ∀ b, l[j]? = some b → p b = false := by
  intro l
  induction l with
  | nil => intro a h; simp [List.find?] at h
  | cons x xs ih =>
    intro a h
    by_cases hp : p x = true
    · rw [List.find?_cons_of_pos _ hp] at h
      obtain rfl : x = a := by injection h
      exact ⟨0, by simp, hp, fun j hj => absurd hj (Nat.not_lt_zero j)⟩
    · rw [List.find?_cons_of_neg _ hp] at h
      obtain ⟨i, hi, hpa, hj⟩ := ih a h
      refine ⟨i + 1, by simpa using hi, hpa, ?_⟩
      intro j hj' b hb
      cases j with
      | zero =>
        simp at hb
        subst hb
        simpa using hp
      | succ j' => exact hj j' (by omega) b (by simpa using hb)

/-- The inner transformer loop is exactly "first match in list order wins,
else keep the element". -/
theorem tryReplacers_eq_firstMatch {γ : Type} (name : String)
    (attrs : List (String × String)) (children : List Node) (ctx : γ) :
    ∀ replacers : List (Transformer γ),
      tryReplacers replacers name attrs children ctx =
        match firstMatch replacers name attrs ctx with
        | some r => r.replace name attrs children ctx
        | none => .ok [Node.Element name attrs children] := by
  intro replacers
  induction replacers with
  | nil => rfl
  | cons r rs ih =>
    simp only [tryReplacers, firstMatch, List.find?_cons]
    cases h : r.matchesFn name attrs ctx with
    | true => simp [h]
    | false =>
      simp only [h, Bool.false_eq_true, if_false]
      simpa [firstMatch] using ih

theorem walkLevel_cons_nonelem {γ : Type} (replacers : List (Transformer γ))
    (ctx : γ) (el : Node) (rest : List Node) (h : nodeIsElement el = false) :
    walkLevel replacers ctx (el :: rest) =
      (walkLevel replacers ctx rest).map (fun out => el :: out) := by
  cases el with
  | Element n a c => simp [nodeIsElement] at h
  | Text s => rfl
  | RawHTML s => rfl

theorem walkLevel_cons_elem {γ : Type} (replacers : List (Transformer γ))
    (ctx : γ) (name : String) (attrs : List (String × String))
    (children rest : List Node) :
    walkLevel replacers ctx (Node.Element name attrs children :: rest) =
      match tryReplacers replacers name attrs children ctx with
      | .ok res => (walkLevel replacers ctx rest).map (fun out => res ++ out)
      | .err e => .err e
      | .panic m => .panic m := rfl

theorem walkInto_cons_nonelem_eq {γ : Type} (fuel : Nat)
    (replacers : List (Transformer γ)) (ctx : γ) (other : Node) (rest : List Node)
    (h : nodeIsElement other = false) :
    walkInto fuel replacers ctx (other :: rest) =
      match walkInto fuel replacers ctx rest with
      | none => none
      | some (.err e) => some (.err e)
      | some (.panic m) => some (.panic m)
      | some (.ok rest') => some (.ok (other :: rest')) := by
  cases other with
  | Element n a c => simp [nodeIsElement] at h
  | Text s =>
    rw [walkInto]
    intro n a c hc
    exact Node.noConfusion hc
  | RawHTML s =>
    rw [walkInto]
    intro n a c hc
    exact Node.noConfusion hc

/-- Pointwise description of the recursion phase: on success, the output
level has the same length as the rebuilt level; non-element nodes are kept
unchanged; every element keeps its name and attributes and has its children
replaced by a successful recursive `walk`. -/
theorem walkInto_ok_spec {γ : Type} (fuel : Nat) (replacers : List (Transformer γ))
    (ctx : γ) :
    ∀ (l out : List Node), walkInto fuel replacers ctx l = some (.ok out) →
      out.length = l.length ∧
      (∀ i : Nat, ∀ nd, l[i]? = some nd → nodeIsElement nd = false → out[i]? = some nd) ∧
      (∀ i : Nat, ∀ name attrs children,
        l[i]? = some (Node.Element name attrs children) →
        ∃ children', walk fuel replacers ctx children = some (.ok children') ∧
          out[i]? = some (Node.Element name attrs children')) := by
  intro l
  induction l with
  | nil =>
    intro out h
    rw [walkInto] at h
    injection h with h
    injection h with h
    subst h
    exact ⟨rfl, by simp, by simp⟩
  | cons x rest ih =>
    intro out h
    cases x with
    | Element name attrs children =>
      rw [walkInto] at h
      cases hw : walk fuel replacers ctx children with
      | none => rw [hw] at h; exact absurd h (by simp)
      | some wr =>
        rw [hw] at h
        cases wr with
        | err e => exact absurd h (by simp)
        | panic m => exact absurd h (by simp)
        | ok children' =>
          cases hri : walkInto fuel replacers ctx rest with
          | none => rw [hri] at h; exact absurd h (by simp)
          | some rr =>
            rw [hri] at h
            cases rr with
            | err e => exact absurd h (by simp)
            | panic m => exact absurd h (by simp)
            | ok rest' =>
              have hout : out = Node.Element name attrs children' :: rest' := by
                simp at h
                exact h.symm
              subst hout
              obtain ⟨hl, hne, hel⟩ := ih rest' hri
              refine ⟨by simp [hl], ?_, ?_⟩
              · intro i nd hnd hni
                cases i with
                | zero =>
                  simp at hnd
                  subst hnd
                  simp [nodeIsElement] at hni
                | succ i' =>
                  simp only [List.getElem?_cons_succ] at hnd ⊢
                  exact hne i' nd hnd hni
              · intro i n2 a2 c2 hnd
                cases i with
                | zero =>
                  simp at hnd
                  obtain ⟨rfl, rfl, rfl⟩ := hnd
                  exact ⟨children', hw, by simp⟩
                | succ i' =>
                  simp only [List.getElem?_cons_succ] at hnd ⊢
                  exact hel i' n2 a2 c2 hnd
    | Text s =>
      rw [walkInto_cons_nonelem_eq fuel replacers ctx _ rest (by rfl)] at h
      cases hri : walkInto fuel replacers ctx rest with
      | none => rw [hri] at h; exact absurd h (by simp)
      | some rr =>
        rw [hri] at h
        cases rr with
        | err e => exact absurd h (by simp)
        | panic m => exact absurd h (by simp)
        | ok rest' =>
          have hout : out = Node.Text s :: rest' := by
            simp at h
            exact h.symm
          subst hout
          obtain ⟨hl, hne, hel⟩ := ih rest' hri
          refine ⟨by simp [hl], ?_, ?_⟩
          · intro i nd hnd hni
            cases i with
            | zero => simp at hnd; subst hnd; simp
            | succ i' =>
              simp only [List.getElem?_cons_succ] at hnd ⊢
              exact hne i' nd hnd hni
          · intro i n2 a2 c2 hnd
            cases i with
            | zero => simp at hnd
            | succ i' =>
              simp only [List.getElem?_cons_succ] at hnd ⊢
              exact hel i' n2 a2 c2 hnd
    | RawHTML s =>
      rw [walkInto_cons_nonelem_eq fuel replacers ctx _ rest (by rfl)] at h
      cases hri : walkInto fuel replacers ctx rest with
      | none => rw [hri] at h; exact absurd h (by simp)
      | some rr =>
        rw [hri] at h
        cases rr with
        | err e => exact absurd h (by simp)
        | panic m => exact absurd h (by simp)
        | ok rest' =>
          have hout : out = Node.RawHTML s :: rest' := by
            simp at h
            exact h.symm
          subst hout
          obtain ⟨hl, hne, hel⟩ := ih rest' hri
          refine ⟨by simp [hl], ?_, ?_⟩
          · intro i nd hnd hni
            cases i with
            | zero => simp at hnd; subst hnd; simp
            | succ i' =>
              simp only [List.getElem?_cons_succ] at hnd ⊢
              exact hne i' nd hnd hni
          · intro i n2 a2 c2 hnd
            cases i with
            | zero => simp at hnd
            | succ i' =>
              simp only [List.getElem?_cons_succ] at hnd ⊢
              exact hel i' n2 a2 c2 hnd

/-- C1: for every node sequence, transformer list and context, one level is
processed in original sibling order: a non-Element node is kept unchanged;
an Element is tested against the transformers in list order and the first
whose `matches` returns true has its `replace` output (zero, one or many
nodes) spliced in place of the element, with the remainder of the level
processed independently of that output (so the output is never re-tested at
this level); an Element matched by no transformer is kept unchanged with
its name, attributes and children. -/
theorem C1_level_processing {γ : Type} :
    (∀ (replacers : List (Transformer γ)) (ctx : γ) (el : Node) (rest : List Node),
        nodeIsElement el = false →
        walkLevel replacers ctx (el :: rest) =
          (walkLevel replacers ctx rest).map (fun out => el :: out)) ∧
    (∀ (replacers : List (Transformer γ)) (ctx : γ) (name : String)
        (attrs : List (String × String)) (children rest : List Node)
        (r : Transformer γ) (res : List Node),
        firstMatch replacers name attrs ctx = some r →
        r.replace name attrs children ctx = .ok res →
        walkLevel replacers ctx (Node.Element name attrs children :: rest) =
          (walkLevel replacers ctx rest).map (fun out => res ++ out)) ∧
    (∀ (replacers : List (Transformer γ)) (ctx : γ) (name : String)
        (attrs : List (String × String)) (children rest : List Node),
        firstMatch replacers name attrs ctx = none →
        walkLevel replacers ctx (Node.Element name attrs children :: rest) =
          (walkLevel replacers ctx rest).map
            (fun out => Node.Element name attrs children :: out)) ∧
    (∀ (replacers : List (Transformer γ)) (ctx : γ) (name : String)
        (attrs : List (String × String)) (r : Transformer γ),
        firstMatch replacers name attrs ctx = some r →
        r.matchesFn name attrs ctx = true ∧
        ∃ i : Nat, replacers[i]? = some r ∧
          ∀ j : Nat, j < i → ∀ t, replacers[j]? = some t →
            t.matchesFn name attrs ctx = false) ∧
    (∀ (replacers : List (Transformer γ)) (ctx : γ) (name : String)
        (attrs : List (String × String)),
        firstMatch replacers name attrs ctx = none ↔
          ∀ t ∈ replacers, t.matchesFn name attrs ctx = false) := by
  refine ⟨?_, ?_, ?_, ?_, ?_⟩
  · exact fun replacers ctx el rest h => walkLevel_cons_nonelem replacers ctx el rest h
  · intro replacers ctx name attrs children rest r res hfm hrep
    rw [walkLevel_cons_elem, tryReplacers_eq_firstMatch, hfm]
    simp [hrep]
  · intro replacers ctx name attrs children rest hfm
    rw [walkLevel_cons_elem, tryReplacers_eq_firstMatch, hfm]
    simp
  · intro replacers ctx name attrs r hfm
    obtain ⟨i, hi, hpa, hj⟩ := find_first_spec _ replacers r hfm
    exact ⟨hpa, i, hi, hj⟩
  · intro replacers ctx name attrs
    unfold firstMatch
    rw [List.find?_eq_none]
    constructor
    · intro h t ht
      have := h t ht
      simpa using this
    · intro h t ht
      simpa using h t ht

/-- A transformer used by concrete witnesses: replaces an `a` element by a
single text node. -/
def witReplA : Transformer Unit :=
  { matchesFn := fun n _ _ => n == ("a")
  , replace := fun _ _ _ _ => .ok [Node.Text ("A")] }

/-- A transformer used by concrete witnesses: matches everything, replaces
by nothing. -/
def witReplAll : Transformer Unit :=
  { matchesFn := fun _ _ _ => true
  , replace := fun _ _ _ _ => .ok [] }

/-- A transformer used by concrete witnesses: matches everything and fails. -/
def witReplBoom : Transformer Unit :=
  { matchesFn := fun _ _ _ => true
  , replace := fun _ _ _ _ => .err (.Other ("boom")) }

theorem C1_level_processing_witness :
    walkLevel [witReplA, witReplAll] () [Node.Element ("a") [] [], Node.Text ("t")] =
      .ok [Node.Text ("A"), Node.Text ("t")] := by
  have h := (C1_level_processing (γ := Unit)).2.1 [witReplA, witReplAll] ()
    ("a") [] [] [Node.Text ("t")] witReplA [Node.Text ("A")] rfl rfl
  rw [h]
  rfl

/-- C2: after a level has been fully rebuilt (successfully), `walk` recurses
into the children of every Element of the rebuilt sequence — including
Elements just produced by a replacement — while the root Elements of the
rebuilt sequence themselves keep their name and attributes (they are not
re-tested against the transformer list at this level during the same
pass). -/
theorem C2_recursion_into_children {γ : Type} :
    (∀ (fuel : Nat) (replacers : List (Transformer γ)) (ctx : γ)
        (dom rebuilt : List Node),
        walkLevel replacers ctx dom = .ok rebuilt →
        walk (fuel + 1) replacers ctx dom = walkInto fuel replacers ctx rebuilt) ∧
    (∀ (fuel : Nat) (replacers : List (Transformer γ)) (ctx : γ)
        (l out : List Node),
        walkInto fuel replacers ctx l = some (.ok out) →
        out.length = l.length ∧
        (∀ i : Nat, ∀ nd, l[i]? = some nd → nodeIsElement nd = false →
          out[i]? = some nd) ∧
        (∀ i : Nat, ∀ name attrs children,
          l[i]? = some (Node.Element name attrs children) →
          ∃ children', walk fuel replacers ctx children = some (.ok children') ∧
            out[i]? = some (Node.Element name attrs children'))) := by
  constructor
  · intro fuel replacers ctx dom rebuilt h
    rw [walk, h]
  · exact fun fuel replacers ctx l out h => walkInto_ok_spec fuel replacers ctx l out h

theorem C2_recursion_into_children_witness :
    walk 2 ([] : List (Transformer Unit)) () [Node.Element ("div") [] [Node.Text ("x")]] =
      walkInto 1 [] () [Node.Element ("div") [] [Node.Text ("x")]] := by
  exact (C2_recursion_into_children (γ := Unit)).1 1 [] ()
    [Node.Element ("div") [] [Node.Text ("x")]]
    [Node.Element ("div") [] [Node.Text ("x")]] rfl

/-- C3: a failing `replace` aborts the walk immediately: at the failing
node's level the error is returned no matter what follows (the quantified
`rest` shows later siblings are never consulted); `walk` propagates a level
error, and the recursion phase propagates an error from a child walk; an
erroring `walk` returns no transformed tree at all, so no partially
transformed tree escapes. -/
theorem C3_error_aborts {γ : Type} :
    (∀ (replacers : List (Transformer γ)) (ctx : γ) (name : String)
        (attrs : List (String × String)) (children rest : List Node)
        (r : Transformer γ) (e : ConfigurafoxError),
        firstMatch replacers name attrs ctx = some r →
        r.replace name attrs children ctx = .err e →
        walkLevel replacers ctx (Node.Element name attrs children :: rest) = .err e) ∧
    (∀ (fuel : Nat) (replacers : List (Transformer γ)) (ctx : γ)
        (dom : List Node) (e : ConfigurafoxError),
        walkLevel replacers ctx dom = .err e →
        walk (fuel + 1) replacers ctx dom = some (.err e)) ∧
    (∀ (fuel : Nat) (replacers : List (Transformer γ)) (ctx : γ) (name : String)
        (attrs : List (String × String)) (children rest : List Node)
        (e : ConfigurafoxError),
        walk fuel replacers ctx children = some (.err e) →
        walkInto fuel replacers ctx (Node.Element name attrs children :: rest) =
          some (.err e)) ∧
    (∀ (fuel : Nat) (replacers : List (Transformer γ)) (ctx : γ)
        (dom : List Node) (e : ConfigurafoxError) (out : List Node),
        walk fuel replacers ctx dom = some (.err e) →
        walk fuel replacers ctx dom ≠ some (.ok out)) := by
  refine ⟨?_, ?_, ?_, ?_⟩
  · intro replacers ctx name attrs children rest r e hfm hrep
    rw [walkLevel_cons_elem, tryReplacers_eq_firstMatch, hfm]
    simp [hrep]
  · intro fuel replacers ctx dom e h
    rw [walk, h]
  · intro fuel replacers ctx name attrs children rest e h
    rw [walkInto, h]
  · intro fuel replacers ctx dom e out h
    rw [h]
    simp

theorem C3_error_aborts_witness :
    walkLevel [witReplBoom] () [Node.Element ("a") [] [], Node.Text ("t")] =
      .err (.Other ("boom")) ∧
    walk 5 [witReplBoom] () [Node.Element ("a") [] [], Node.Text ("t")] =
      some (.err (.Other ("boom"))) := by
  have h1 := (C3_error_aborts (γ := Unit)).1 [witReplBoom] () ("a") [] []
    [Node.Text ("t")] witReplBoom (.Other ("boom")) rfl rfl
  have h2 := (C3_error_aborts (γ := Unit)).2.1 4 [witReplBoom] ()
    [Node.Element ("a") [] [], Node.Text ("t")] (.Other ("boom")) h1
  exact ⟨h1, h2⟩

/-- If `f` succeeds on every attribute value (computing `g`), the
attribute-mapping loop succeeds and maps every value through `g`, keeping
keys and order. -/
theorem mapAttrVals_ok (f : String → RunResult String) (g : String → String) :
    ∀ attrs : List (String × String),
      (∀ kv ∈ attrs, f kv.2 = .ok (g kv.2)) →
      mapAttrVals f attrs = .ok (attrs.map (fun kv => (kv.1, g kv.2))) := by
  intro attrs
  induction attrs with
  | nil => intro _; rfl
  | cons kv rest ih =>
    intro h
    obtain ⟨k, v⟩ := kv
    have hv : f v = .ok (g v) := h (k, v) (by simp)
    rw [mapAttrVals, hv, ih (fun kv' hkv' => h kv' (by simp [hkv']))]
    rfl

/-- If `f` succeeds on every attribute value before one on which it errors,
the attribute-mapping loop returns that error. -/
theorem mapAttrVals_err (f : String → RunResult String)
    (pre : List (String × String)) (k v : String) (post : List (String × String))
    (e : ConfigurafoxError)
    (hpre : ∀ kv ∈ pre, ∃ v', f kv.2 = .ok v') (hv : f v = .err e) :
    mapAttrVals f (pre ++ (k, v) :: post) = .err e := by
  induction pre with
  | nil => simp only [List.nil_append, mapAttrVals, hv]
  | cons kv0 rest ih =>
    obtain ⟨k0, v0⟩ := kv0
    obtain ⟨v', hv'⟩ := hpre (k0, v0) (by simp)
    rw [List.cons_append, mapAttrVals, hv',
      ih (fun kv' hkv' => hpre kv' (by simp [hkv']))]
    rfl

/-- If `f` succeeds on every attribute value before one on which it panics,
the attribute-mapping loop panics with that message. -/
theorem mapAttrVals_panic (f : String → RunResult String)
    (pre : List (String × String)) (k v : String) (post : List (String × String))
    (m : String)
    (hpre : ∀ kv ∈ pre, ∃ v', f kv.2 = .ok v') (hv : f v = .panic m) :
    mapAttrVals f (pre ++ (k, v) :: post) = .panic m := by
  induction pre with
  | nil => simp only [List.nil_append, mapAttrVals, hv]
  | cons kv0 rest ih =>
    obtain ⟨k0, v0⟩ := kv0
    obtain ⟨v', hv'⟩ := hpre (k0, v0) (by simp)
    rw [List.cons_append, mapAttrVals, hv',
      ih (fun kv' hkv' => hpre kv' (by simp [hkv']))]
    rfl

/-- C4: `VariableReplacer::replace`: a sigil-prefixed tag becomes exactly
one Text node holding the mapped value (children discarded); a missing
mapping for the tag yields an "Unknown variable" error naming the full
reference; a non-sigil tag keeps its name and children, with every
`$`-prefixed attribute value replaced by its mapped value and every other
attribute value unchanged; the first `$`-prefixed attribute value whose
stripped name is unmapped yields an "Unknown variable" error naming that
reference. -/
theorem C4_variable_replacer {γ : Type} :
    (∀ (vars : List (String × String)) (tag : String)
        (attrs : List (String × String)) (children : List Node) (ctx : γ)
        (v : String),
        strStartsWith tag ("$") = true → vars.lookup (strDrop tag 1) = some v →
        (VariableReplacer vars).replace tag attrs children ctx =
          .ok [Node.Text v]) ∧
    (∀ (vars : List (String × String)) (tag : String)
        (attrs : List (String × String)) (children : List Node) (ctx : γ),
        strStartsWith tag ("$") = true → vars.lookup (strDrop tag 1) = none →
        (VariableReplacer vars).replace tag attrs children ctx =
          .err (.Other ("Unknown variable " ++ tag))) ∧
    (∀ (vars : List (String × String)) (tag : String)
        (attrs : List (String × String)) (children : List Node) (ctx : γ),
        strStartsWith tag ("$") = false →
        (∀ kv ∈ attrs, strStartsWith kv.2 ("$") = true →
          (vars.lookup (strDrop kv.2 1)).isSome) →
        (VariableReplacer vars).replace tag attrs children ctx =
          .ok [Node.Element tag
            (attrs.map (fun kv =>
              (kv.1, if strStartsWith kv.2 ("$") then
                       (vars.lookup (strDrop kv.2 1)).getD kv.2
                     else kv.2)))
            children]) ∧
    (∀ (vars : List (String × String)) (tag : String)
        (pre : List (String × String)) (k v : String)
        (post : List (String × String)) (children : List Node) (ctx : γ),
        strStartsWith tag ("$") = false →
        (∀ kv ∈ pre, strStartsWith kv.2 ("$") = true →
          (vars.lookup (strDrop kv.2 1)).isSome) →
        strStartsWith v ("$") = true → vars.lookup (strDrop v 1) = none →
        (VariableReplacer vars).replace tag (pre ++ (k, v) :: post) children ctx =
          .err (.Other ("Unknown variable " ++ v))) := by
  refine ⟨?_, ?_, ?_, ?_⟩
  · intro vars tag attrs children ctx v htag hv
    simp [VariableReplacer, replace_var, htag, hv, RunResult.map]
  · intro vars tag attrs children ctx htag hv
    simp [VariableReplacer, replace_var, htag, hv, RunResult.map]
  · intro vars tag attrs children ctx htag hattrs
    have hmap := mapAttrVals_ok (replace_var vars)
      (fun v => if strStartsWith v ("$") then (vars.lookup (strDrop v 1)).getD v else v)
      attrs ?_
    · simp [VariableReplacer, htag, hmap, RunResult.map]
    · intro kv hkv
      by_cases hs : strStartsWith kv.2 ("$") = true
      · have := hattrs kv hkv hs
        obtain ⟨v', hv'⟩ := Option.isSome_iff_exists.mp this
        simp [replace_var, hs, hv']
      · simp at hs
        simp [replace_var, hs]
  · intro vars tag pre k v post children ctx htag hpre hv hnone
    have hmap := mapAttrVals_err (replace_var vars) pre k v post
      (.Other ("Unknown variable " ++ v)) ?_ ?_
    · simp [VariableReplacer, htag, hmap, RunResult.map]
    · intro kv hkv
      by_cases hs : strStartsWith kv.2 ("$") = true
      · obtain ⟨v', hv'⟩ := Option.isSome_iff_exists.mp (hpre kv hkv hs)
        exact ⟨v', by simp [replace_var, hs, hv']⟩
      · simp at hs
        exact ⟨kv.2, by simp [replace_var, hs]⟩
    · simp [replace_var, hv, hnone]

theorem C4_variable_replacer_witness :
    (VariableReplacer (γ := Unit) [(("name"), ("Alice"))]).replace
        ("$name") [] [Node.Text ("junk")] () = .ok [Node.Text ("Alice")] ∧
    (VariableReplacer (γ := Unit) [(("name"), ("Alice"))]).replace
        ("div") [(("class"), ("$name")), (("id"), ("top"))] [Node.Text ("body")] () =
      .ok [Node.Element ("div") [(("class"), ("Alice")), (("id"), ("top"))]
        [Node.Text ("body")]] ∧
    (VariableReplacer (γ := Unit) [(("name"), ("Alice"))]).replace
        ("p") [(("class"), ("$unknown"))] [] () =
      .err (.Other ("Unknown variable $unknown")) := by
  refine ⟨?_, ?_, ?_⟩
  · exact (C4_variable_replacer (γ := Unit)).1 [(("name"), ("Alice"))] ("$name")
      [] [Node.Text ("junk")] () ("Alice") rfl rfl
  · have h := (C4_variable_replacer (γ := Unit)).2.2.1 [(("name"), ("Alice"))]
      ("div") [(("class"), ("$name")), (("id"), ("top"))] [Node.Text ("body")] ()
      rfl (by decide)
    rw [h]
    rfl
  · exact (C4_variable_replacer (γ := Unit)).2.2.2 [(("name"), ("Alice"))] ("p")
      [] ("class") ("$unknown") [] [] () rfl (by simp) rfl rfl

/-- C5: `LinkReplacer::replace`: every attribute value with the `@` sigil
is replaced by the path of the `output_path()` of the first registered
resource whose `identifier()` equals the stripped value, relativized by
`diff_paths` against the directory containing the current source path; with
no parent directory the resource's output path is used unchanged; an
unresolvable reference yields an "Unknown identifier" error naming it;
non-sigil values, the tag name and the children are unchanged. -/
theorem C5_link_replacer :
    (∀ (resources : List (Resource × RPath)) (source_path : RPath)
        (dp : RPath → RPath → Option RPath) (x : String),
        strStartsWith x ("@") = false →
        replace_link resources source_path dp x = .ok x) ∧
    (∀ (resources : List (Resource × RPath)) (source_path : RPath)
        (dp : RPath → RPath → Option RPath) (x : String)
        (rp0 : Resource × RPath) (source_dir d : RPath) (s : String),
        strStartsWith x ("@") = true →
        resources.find? (fun rp => rp.1.identifier == strDrop x 1) = some rp0 →
        pathParent source_path = some source_dir →
        dp rp0.1.outputPath source_dir = some d →
        pathToStr d = some s →
        replace_link resources source_path dp x = .ok s) ∧
    (∀ (resources : List (Resource × RPath)) (source_path : RPath)
        (dp : RPath → RPath → Option RPath) (x : String)
        (rp0 : Resource × RPath) (s : String),
        strStartsWith x ("@") = true →
        resources.find? (fun rp => rp.1.identifier == strDrop x 1) = some rp0 →
        pathParent source_path = none →
        pathToStr rp0.1.outputPath = some s →
        replace_link resources source_path dp x = .ok s) ∧
    (∀ (resources : List (Resource × RPath)) (source_path : RPath)
        (dp : RPath → RPath → Option RPath) (x : String),
        strStartsWith x ("@") = true →
        (∀ rp ∈ resources, rp.1.identifier ≠ strDrop x 1) →
        replace_link resources source_path dp x =
          .err (.Other ("Unknown identifier: " ++ x))) ∧
    (∀ (resources : List (Resource × RPath)) (x : String)
        (rp0 : Resource × RPath),
        resources.find? (fun rp => rp.1.identifier == strDrop x 1) = some rp0 →
        rp0.1.identifier = strDrop x 1 ∧
        ∃ i : Nat, resources[i]? = some rp0 ∧
          ∀ j : Nat, j < i → ∀ rp', resources[j]? = some rp' →
            rp'.1.identifier ≠ strDrop x 1) ∧
    (∀ (dp : RPath → RPath → Option RPath) (tag : String)
        (attrs : List (String × String)) (children : List Node) (ctx : Context)
        (attrs' : List (String × String)),
        mapAttrVals (replace_link ctx.resources ctx.sourcePath dp) attrs = .ok attrs' →
        (LinkReplacer dp).replace tag attrs children ctx =
          .ok [Node.Element tag attrs' children]) ∧
    (∀ (dp : RPath → RPath → Option RPath) (tag : String)
        (attrs : List (String × String)) (children : List Node) (ctx : Context)
        (e : ConfigurafoxError),
        mapAttrVals (replace_link ctx.resources ctx.sourcePath dp) attrs = .err e →
        (LinkReplacer dp).replace tag attrs children ctx = .err e) := by
  refine ⟨?_, ?_, ?_, ?_, ?_, ?_, ?_⟩
  · intro resources source_path dp x hs
    simp [replace_link, hs]
  · intro resources source_path dp x rp0 source_dir d s hs hfind hpar hdiff hstr
    simp [replace_link, hs, hfind, hpar, hdiff, hstr]
  · intro resources source_path dp x rp0 s hs hfind hpar hstr
    simp [replace_link, hs, hfind, hpar, hstr]
  · intro resources source_path dp x hs hnone
    have hfind : resources.find? (fun rp => rp.1.identifier == strDrop x 1) = none := by
      rw [List.find?_eq_none]
      intro rp hrp
      simpa using hnone rp hrp
    simp [replace_link, hs, hfind]
  · intro resources x rp0 hfind
    obtain ⟨i, hi, hpa, hj⟩ := find_first_spec _ resources rp0 hfind
    refine ⟨by simpa using hpa, i, hi, ?_⟩
    intro j hji rp' hrp'
    have := hj j hji rp' hrp'
    simpa using this
  · intro dp tag attrs children ctx attrs' hmap
    simp [LinkReplacer, hmap, RunResult.map]
  · intro dp tag attrs children ctx e hmap
    simp [LinkReplacer, hmap, RunResult.map]

/-- Witness fixtures: the resources of the spec's link-resolution example,
plus a concrete stand-in for `pathdiff::diff_paths` going up one level. -/
def witAbout : Resource :=
  { identifier := ("about")
  , outputPath := [PComp.valid ("about"), PComp.valid ("index.html")] }

def witPost : Resource :=
  { identifier := ("post1")
  , outputPath := [PComp.valid ("blog"), PComp.valid ("post1.html")] }

def witCtx : Context :=
  { resource := witPost
  , sourcePath := [PComp.valid ("blog"), PComp.valid ("post1.html")]
  , resources :=
      [(witPost, [PComp.valid ("blog"), PComp.valid ("post1.html")]),
       (witAbout, [PComp.valid ("about"), PComp.valid ("index.html")])] }

def witDiff : RPath → RPath → Option RPath :=
  fun p _ => some (PComp.valid ("..") :: p)

theorem C5_link_replacer_witness :
    (LinkReplacer witDiff).replace ("a") [(("href"), ("@about"))]
        [Node.Text ("x")] witCtx =
      .ok [Node.Element ("a") [(("href"), ("../about/index.html"))]
        [Node.Text ("x")]] ∧
    replace_link witCtx.resources witCtx.sourcePath witDiff ("@missing") =
      .err (.Other ("Unknown identifier: @missing")) := by
  constructor
  · have hlink := C5_link_replacer.2.1 witCtx.resources witCtx.sourcePath witDiff
      ("@about") (witAbout, [PComp.valid ("about"), PComp.valid ("index.html")])
      [PComp.valid ("blog")]
      [PComp.valid (".."), PComp.valid ("about"), PComp.valid ("index.html")]
      ("../about/index.html") rfl rfl rfl rfl rfl
    have hmap : mapAttrVals (replace_link witCtx.resources witCtx.sourcePath witDiff)
        [(("href"), ("@about"))] = .ok [(("href"), ("../about/index.html"))] := by
      rw [mapAttrVals, hlink]
      rfl
    exact C5_link_replacer.2.2.2.2.2.1 witDiff ("a") [(("href"), ("@about"))]
      [Node.Text ("x")] witCtx [(("href"), ("../about/index.html"))] hmap
  · exact C5_link_replacer.2.2.2.1 witCtx.resources witCtx.sourcePath witDiff
      ("@missing") rfl (by decide)

/-- C9 fixtures: a registered resource whose output path has a non-UTF-8
component, so that the computed relative path is not valid UTF-8. -/
def witBadResource : Resource :=
  { identifier := ("about"), outputPath := [PComp.invalid [255]] }

def witBadCtx : Context :=
  { resource := witBadResource
  , sourcePath := [PComp.valid ("blog"), PComp.valid ("post1.html")]
  , resources := [(witBadResource, [])] }

def witDiffId : RPath → RPath → Option RPath :=
  fun p _ => some p

/-- C9 counterexample: the computed relative path is not valid UTF-8, yet
`replace` does not fail with an error surfaced to its caller — it panics
(the `expect("Invalid UTF-8 in path")`), which unwinds instead of
returning an `Err`. -/
theorem C9_counterexample :
    witDiffId witBadResource.outputPath [PComp.valid ("blog")] =
      some [PComp.invalid [255]] ∧
    pathToStr [PComp.invalid [255]] = none ∧
    (LinkReplacer witDiffId).replace ("a") [(("href"), ("@about"))] [] witBadCtx =
      .panic ("Invalid UTF-8 in path") ∧
    RunResult.isErr ((LinkReplacer witDiffId).replace ("a") [(("href"), ("@about"))]
      [] witBadCtx) = false := by
  refine ⟨rfl, rfl, by decide, by decide⟩

/-- C9 (amended): whenever the computed relative path (or, with no parent
directory, the resource's output path) is not valid UTF-8, the `replace`
call panics with message "Invalid UTF-8 in path" — the process aborts
rather than an error value being returned to the caller. -/
theorem C9_invalid_utf8_panics :
    (∀ (resources : List (Resource × RPath)) (source_path : RPath)
        (dp : RPath → RPath → Option RPath) (x : String)
        (rp0 : Resource × RPath) (source_dir d : RPath),
        strStartsWith x ("@") = true →
        resources.find? (fun rp => rp.1.identifier == strDrop x 1) = some rp0 →
        pathParent source_path = some source_dir →
        dp rp0.1.outputPath source_dir = some d →
        pathToStr d = none →
        replace_link resources source_path dp x =
          .panic ("Invalid UTF-8 in path")) ∧
    (∀ (resources : List (Resource × RPath)) (source_path : RPath)
        (dp : RPath → RPath → Option RPath) (x : String)
        (rp0 : Resource × RPath),
        strStartsWith x ("@") = true →
        resources.find? (fun rp => rp.1.identifier == strDrop x 1) = some rp0 →
        pathParent source_path = none →
        pathToStr rp0.1.outputPath = none →
        replace_link resources source_path dp x =
          .panic ("Invalid UTF-8 in path")) ∧
    (∀ (dp : RPath → RPath → Option RPath) (tag : String)
        (attrs : List (String × String)) (children : List Node) (ctx : Context)
        (m : String),
        mapAttrVals (replace_link ctx.resources ctx.sourcePath dp) attrs = .panic m →
        (LinkReplacer dp).replace tag attrs children ctx = .panic m) := by
  refine ⟨?_, ?_, ?_⟩
  · intro resources source_path dp x rp0 source_dir d hs hfind hpar hdiff hstr
    simp [replace_link, hs, hfind, hpar, hdiff, hstr]
  · intro resources source_path dp x rp0 hs hfind hpar hstr
    simp [replace_link, hs, hfind, hpar, hstr]
  · intro dp tag attrs children ctx m hmap
    simp [LinkReplacer, hmap, RunResult.map]

theorem C9_invalid_utf8_panics_witness :
    (LinkReplacer witDiffId).replace ("p") [(("href"), ("@about"))] [] witBadCtx =
      .panic ("Invalid UTF-8 in path") := by
  have hlink := C9_invalid_utf8_panics.1 witBadCtx.resources witBadCtx.sourcePath
    witDiffId ("@about") (witBadResource, []) [PComp.valid ("blog")]
    [PComp.invalid [255]] rfl rfl rfl rfl rfl
  have hmap : mapAttrVals (replace_link witBadCtx.resources witBadCtx.sourcePath
      witDiffId) [(("href"), ("@about"))] = .panic ("Invalid UTF-8 in path") := by
    rw [mapAttrVals, hlink]
  exact C9_invalid_utf8_panics.2.2 witDiffId ("p") [(("href"), ("@about"))] []
    witBadCtx ("Invalid UTF-8 in path") hmap

/-! Lemmas about the `deindent` helpers, leading to the first-line
measurement equivalence. -/

theorem countLeadingSpaces_cons (c : Char) (l : List Char) :
    countLeadingSpaces (c :: l) =
      if (c == ' ') = true then countLeadingSpaces l + 1 else 0 := by
  rw [countLeadingSpaces, List.takeWhile_cons]
  by_cases h : (c == ' ') = true
  · simp [h, countLeadingSpaces]
  · simp [h]

theorem splitNL_ne_nil : ∀ l : List Char, splitNL l ≠ [] := by
  intro l
  cases l with
  | nil => simp [splitNL]
  | cons c rest =>
    by_cases hc : (c == '\n') = true
    · simp [splitNL, hc]
    · cases h : splitNL rest with
      | nil => simp [splitNL, hc, h]
      | cons p ps => simp [splitNL, hc, h]

theorem splitNL_headD : ∀ l : List Char,
    (splitNL l).headD [] = l.takeWhile (fun c => !(c == '\n')) := by
  intro l
  induction l with
  | nil => simp [splitNL]
  | cons c rest ih =>
    by_cases hc : (c == '\n') = true
    · simp [splitNL, hc, List.takeWhile_cons]
    · cases h : splitNL rest with
      | nil => exact absurd h (splitNL_ne_nil rest)
      | cons p ps =>
        rw [h] at ih
        simp only [List.headD_cons] at ih
        simp [splitNL, hc, h, List.takeWhile_cons, ih]

theorem countLeadingSpaces_dropLast :
    ∀ q : List Char, q.getLast? = some '\r' →
      countLeadingSpaces q.dropLast = countLeadingSpaces q := by
  intro q
  induction q with
  | nil => intro h; simp at h
  | cons c rest ih =>
    intro h
    cases rest with
    | nil =>
      simp at h
      subst h
      simp [countLeadingSpaces, List.takeWhile]
    | cons d t =>
      rw [List.getLast?_cons_cons] at h
      have hd : (c :: d :: t).dropLast = c :: (d :: t).dropLast := rfl
      rw [hd, countLeadingSpaces_cons, countLeadingSpaces_cons, ih h]

theorem countLeadingSpaces_stripTrailingCR (q : List Char) :
    countLeadingSpaces (stripTrailingCR q) = countLeadingSpaces q := by
  unfold stripTrailingCR
  split
  · next h => exact countLeadingSpaces_dropLast q h
  · rfl

theorem countLeadingSpaces_takeWhile : ∀ l : List Char,
    countLeadingSpaces (l.takeWhile (fun c => !(c == '\n'))) =
      countLeadingSpaces l := by
  intro l
  induction l with
  | nil => simp
  | cons c rest ih =>
    by_cases hc : (c == '\n') = true
    · have hceq : c = '\n' := by simpa using hc
      subst hceq
      rw [List.takeWhile_cons]
      simp [countLeadingSpaces_cons, countLeadingSpaces]
    · rw [List.takeWhile_cons]
      simp only [hc, Bool.not_false, if_true]
      rw [countLeadingSpaces_cons, countLeadingSpaces_cons, ih]

theorem countLeadingSpaces_headD_stripCRall (p : List Char)
    (ps : List (List Char)) :
    countLeadingSpaces ((stripCRall (p :: ps)).headD []) =
      countLeadingSpaces p := by
  cases ps with
  | nil =>
    rw [stripCRall]
    by_cases hpe : p.isEmpty = true
    · rw [if_pos hpe]
      have hp : p = [] := by simpa using hpe
      rw [hp]
      rfl
    · rw [if_neg hpe]
      rfl
  | cons q qs =>
    rw [stripCRall]
    simp only [List.headD_cons]
    exact countLeadingSpaces_stripTrailingCR p

/-- The run of leading spaces counted on the whole (already
newline-trimmed, end-trimmed) text equals the run counted on its first
line: counting stops at the first non-space, so the first `'\n'` or the
`'\r'` of a `"\r\n"` ending is never inside the counted run. -/
theorem countLeadingSpaces_firstLine (l : List Char) :
    countLeadingSpaces ((rustLines l).headD []) = countLeadingSpaces l := by
  rw [rustLines]
  cases hsp : splitNL l with
  | nil => exact absurd hsp (splitNL_ne_nil l)
  | cons p ps =>
    have hp : p = l.takeWhile (fun c => !(c == '\n')) := by
      have hhead := splitNL_headD l
      rw [hsp] at hhead
      simpa using hhead
    rw [countLeadingSpaces_headD_stripCRall, hp, countLeadingSpaces_takeWhile]

theorem deindent_eq_amended (s : String) : deindent s = deindentAmended s := by
  simp only [deindent, deindentAmended, countLeadingSpaces_firstLine]

/-- C6 counterexample: the claim describes `deindent` as "stripping a
single leading newline if present", but `trim_start_matches("\n")` strips
ALL leading newlines; on the input `"\n\nabc"` the code yields `"abc"`
while the claimed pipeline yields `"\nabc"`. -/
theorem C6_counterexample :
    deindent ("\n\nabc") = ("abc") ∧
    deindentClaimed ("\n\nabc") = ("\nabc") ∧
    deindent ("\n\nabc") ≠ deindentClaimed ("\n\nabc") := by
  refine ⟨by decide, by decide, by decide⟩

/-- C6 (amended): `deindent` strips ALL leading newlines, trims trailing
whitespace, measures the run of leading space characters on the resulting
first line, strips that exact run (where present as a prefix) from every
line and joins the lines with newline; in particular
`"\n    line1\n    line2\n"` de-indents to `"line1\nline2"`. -/
theorem C6_deindent_amended :
    (∀ s : String, deindent s = deindentAmended s) ∧
    deindent ("\n    line1\n    line2\n") = ("line1\nline2") := by
  exact ⟨deindent_eq_amended, by decide⟩

/-- C8: `KatexReplacer::replace` on `katex` or `$`: with exactly one Text
child the result is a single RawHTML node holding the render output, with
display mode enabled only for `katex` (options: HTML output, trust on);
any other child shape yields the "Katex: malformed body" error; and RawHTML
nodes are never re-tested or re-walked — both walk phases pass them through
unchanged. -/
theorem C8_katex_replacer {γ : Type} :
    (∀ (ver : String) (render : String → KatexOpts → Option String)
        (tag : String) (attrs : List (String × String)) (tex rendered : String)
        (ctx : γ),
        (tag = ("katex") ∨ tag = ("$")) →
        render tex (katexOptsFor tag) = some rendered →
        (KatexReplacer ver render).replace tag attrs [Node.Text tex] ctx =
          .ok [Node.RawHTML rendered]) ∧
    (∀ tag : String,
        (katexOptsFor tag).displayMode = (tag == ("katex")) ∧
        (katexOptsFor tag).outputType = .html ∧
        (katexOptsFor tag).trust = true) ∧
    (∀ (ver : String) (render : String → KatexOpts → Option String)
        (tag : String) (attrs : List (String × String)) (children : List Node)
        (ctx : γ),
        (tag = ("katex") ∨ tag = ("$")) →
        (∀ tex, children ≠ [Node.Text tex]) →
        (KatexReplacer ver render).replace tag attrs children ctx =
          .err (.Other ("Katex: malformed body"))) ∧
    (∀ (replacers : List (Transformer γ)) (ctx : γ) (s : String)
        (rest : List Node),
        walkLevel replacers ctx (Node.RawHTML s :: rest) =
          (walkLevel replacers ctx rest).map (fun out => Node.RawHTML s :: out)) ∧
    (∀ (fuel : Nat) (replacers : List (Transformer γ)) (ctx : γ) (s : String)
        (rest out : List Node),
        walkInto fuel replacers ctx rest = some (.ok out) →
        walkInto fuel replacers ctx (Node.RawHTML s :: rest) =
          some (.ok (Node.RawHTML s :: out))) := by
  refine ⟨?_, ?_, ?_, ?_, ?_⟩
  · intro ver render tag attrs tex rendered ctx htag hrender
    rcases htag with rfl | rfl <;> simp [KatexReplacer, hrender]
  · intro tag
    exact ⟨rfl, rfl, rfl⟩
  · intro ver render tag attrs children ctx htag hshape
    rcases htag with rfl | rfl <;>
    · cases children with
      | nil => simp [KatexReplacer]
      | cons hd tl =>
        cases tl with
        | nil =>
          cases hd with
          | Text tex => exact absurd rfl (hshape tex)
          | Element n a c => simp [KatexReplacer]
          | RawHTML s => simp [KatexReplacer]
        | cons hd2 tl2 => simp [KatexReplacer]
  · intro replacers ctx s rest
    exact walkLevel_cons_nonelem replacers ctx (Node.RawHTML s) rest rfl
  · intro fuel replacers ctx s rest out h
    rw [walkInto_cons_nonelem_eq fuel replacers ctx (Node.RawHTML s) rest rfl, h]

/-- A concrete render function for the witnesses: tags the input and
records whether display mode was on. -/
def witRender : String → KatexOpts → Option String :=
  fun t o => some (("R[") ++ t ++ (if o.displayMode then ("|display]") else ("]")))

theorem C8_katex_replacer_witness :
    (KatexReplacer (γ := Unit) ("0.11.1") witRender).replace ("katex") []
        [Node.Text ("x+y")] () = .ok [Node.RawHTML ("R[x+y|display]")] ∧
    (KatexReplacer (γ := Unit) ("0.11.1") witRender).replace ("$") []
        [Node.Text ("z")] () = .ok [Node.RawHTML ("R[z]")] ∧
    (KatexReplacer (γ := Unit) ("0.11.1") witRender).replace ("katex") [] [] () =
      .err (.Other ("Katex: malformed body")) := by
  refine ⟨?_, ?_, ?_⟩
  · exact (C8_katex_replacer (γ := Unit)).1 ("0.11.1") witRender ("katex") []
      ("x+y") ("R[x+y|display]") () (Or.inl rfl) (by decide)
  · exact (C8_katex_replacer (γ := Unit)).1 ("0.11.1") witRender ("$") []
      ("z") ("R[z]") () (Or.inr rfl) (by decide)
  · exact (C8_katex_replacer (γ := Unit)).2.2.1 ("0.11.1") witRender ("katex")
      [] [] () (Or.inl rfl) (by intro tex h; exact List.noConfusion h)

/-- C10: under the Walker's guarantee that `replace` is only invoked on a
tag for which the same transformer's `matches` returned true, the
`unreachable!` fall-through arms of `KatexReplacer::replace` and
`SyntaxHighlighter::replace` are dead: a matching tag is always one of the
handled ones, and the result is never the fall-through panic. -/
theorem C10_fallthrough_dead {γ : Type} :
    (∀ (ver : String) (render : String → KatexOpts → Option String)
        (name : String) (attrs : List (String × String)) (ctx : γ),
        (KatexReplacer ver render).matchesFn name attrs ctx = true →
        name = ("$") ∨ name = ("katex") ∨ name = ("katex-prelude")) ∧
    (∀ (ver : String) (render : String → KatexOpts → Option String)
        (name : String) (attrs : List (String × String)) (children : List Node)
        (ctx : γ),
        (KatexReplacer ver render).matchesFn name attrs ctx = true →
        (KatexReplacer ver render).replace name attrs children ctx ≠
          .panic (katexUnreachableMsg name)) ∧
    (∀ (env : SyntectEnv) (ts : List (String × SyntectTheme)) (th : String)
        (name : String) (attrs : List (String × String)) (ctx : γ),
        (SyntaxHighlighter env ts th).matchesFn name attrs ctx = true →
        name = ("code-hl") ∨ name = ("pre-hl")) ∧
    (∀ (env : SyntectEnv) (ts : List (String × SyntectTheme)) (th : String)
        (name : String) (attrs : List (String × String)) (children : List Node)
        (ctx : γ),
        (SyntaxHighlighter env ts th).matchesFn name attrs ctx = true →
        (SyntaxHighlighter env ts th).replace name attrs children ctx ≠
          .panic shUnreachableMsg) := by
  refine ⟨?_, ?_, ?_, ?_⟩
  · intro ver render name attrs ctx h
    have h' : (name = ("$") ∨ name = ("katex")) ∨ name = ("katex-prelude") := by
      simpa [KatexReplacer] using h
    tauto
  · intro ver render name attrs children ctx h
    have hcase : (name = ("$") ∨ name = ("katex")) ∨ name = ("katex-prelude") := by
      simpa [KatexReplacer] using h
    rcases hcase with (rfl | rfl) | rfl
    · cases children with
      | nil => simp [KatexReplacer]
      | cons hd tl =>
        cases tl with
        | nil =>
          cases hd with
          | Text tex =>
            cases hr : render tex (katexOptsFor ("$")) with
            | some rnd => simp [KatexReplacer, hr]
            | none =>
              simp only [KatexReplacer]
              simp [hr, katexUnreachableMsg]
          | Element n a c => simp [KatexReplacer]
          | RawHTML s => simp [KatexReplacer]
        | cons hd2 tl2 => simp [KatexReplacer]
    · cases children with
      | nil => simp [KatexReplacer]
      | cons hd tl =>
        cases tl with
        | nil =>
          cases hd with
          | Text tex =>
            cases hr : render tex (katexOptsFor ("katex")) with
            | some rnd => simp [KatexReplacer, hr]
            | none =>
              simp only [KatexReplacer]
              simp [hr, katexUnreachableMsg]
          | Element n a c => simp [KatexReplacer]
          | RawHTML s => simp [KatexReplacer]
        | cons hd2 tl2 => simp [KatexReplacer]
    · simp [KatexReplacer, katexUnreachableMsg]
  · intro env ts th name attrs ctx h
    simpa [SyntaxHighlighter] using h
  · intro env ts th name attrs children ctx h
    have hcase : name = ("code-hl") ∨ name = ("pre-hl") := by
      simpa [SyntaxHighlighter] using h
    rcases hcase with rfl | rfl <;>
    · simp only [SyntaxHighlighter]
      repeat' split
      all_goals simp_all

def witEnv : SyntectEnv :=
  { findByExtension := fun _ => none
  , highlight := fun _ _ _ => .error ("e")
  , parseHtml := fun _ => .error ("e") }

theorem C10_fallthrough_dead_witness :
    (KatexReplacer (γ := Unit) ("0") witRender).replace ("katex") [] [] () ≠
      .panic (katexUnreachableMsg ("katex")) ∧
    (SyntaxHighlighter (γ := Unit) witEnv [] ("t")).replace ("pre-hl") [] [] () ≠
      .panic shUnreachableMsg := by
  constructor
  · exact (C10_fallthrough_dead (γ := Unit)).2.1 ("0") witRender ("katex") [] []
      () (by decide)
  · exact (C10_fallthrough_dead (γ := Unit)).2.2.2 witEnv [] ("t") ("pre-hl")
      [] [] () (by decide)

/-! Lemmas for the idempotence claim: on a clean element no repository
transformer matches, so a whole clean tree passes through `walk`
unchanged. -/

theorem repo_matchesFn_false (t : Transformer Context) (hrepo : RepoTransformer t)
    (name : String) (attrs : List (String × String)) (ctx : Context)
    (h1 : strStartsWith name ("$") = false)
    (h3 : reservedTags.contains name = false)
    (h4 : ∀ kv ∈ attrs, strStartsWith kv.2 ("$") = false ∧
      strStartsWith kv.2 ("@") = false) :
    t.matchesFn name attrs ctx = false := by
  have h3' : name ≠ ("$") ∧ name ≠ ("katex") ∧ name ≠ ("katex-prelude") ∧
      name ≠ ("code-hl") ∧ name ≠ ("pre-hl") := by
    simpa [reservedTags] using h3
  rcases hrepo with ⟨vars, rfl⟩ | ⟨dp, rfl⟩ | ⟨ver, render, rfl⟩ | ⟨env, ts, th, rfl⟩
  · simp only [VariableReplacer, Bool.or_eq_false_iff]
    refine ⟨h1, ?_⟩
    rw [List.any_eq_false]
    intro kv hkv
    simp [(h4 kv hkv).1]
  · simp only [LinkReplacer]
    rw [List.any_eq_false]
    intro kv hkv
    simp [(h4 kv hkv).2]
  · simp [KatexReplacer, h3'.1, h3'.2.1, h3'.2.2.1]
  · simp [SyntaxHighlighter, h3'.2.2.2.1, h3'.2.2.2.2]

theorem tryReplacers_no_match {γ : Type} (name : String)
    (attrs : List (String × String)) (children : List Node) (ctx : γ) :
    ∀ replacers : List (Transformer γ),
      (∀ t ∈ replacers, t.matchesFn name attrs ctx = false) →
      tryReplacers replacers name attrs children ctx =
        .ok [Node.Element name attrs children] := by
  intro replacers
  induction replacers with
  | nil => intro _; rfl
  | cons r rs ih =>
    intro h
    have hr : r.matchesFn name attrs ctx = false := h r (by simp)
    simp only [tryReplacers, hr, Bool.false_eq_true, if_false]
    exact ih (fun t ht => h t (by simp [ht]))

theorem walkLevel_clean (replacers : List (Transformer Context))
    (hrepo : ∀ t ∈ replacers, RepoTransformer t) (ctx : Context) :
    ∀ dom : List Node, cleanNodes dom = true →
      walkLevel replacers ctx dom = .ok dom := by
  intro dom
  induction dom with
  | nil => intro _; rfl
  | cons x rest ih =>
    intro h
    rw [cleanNodes] at h
    simp only [Bool.and_eq_true] at h
    obtain ⟨hx, hrest⟩ := h
    cases x with
    | Element name attrs children =>
      rw [cleanNode] at hx
      simp only [Bool.and_eq_true, Bool.not_eq_true'] at hx
      obtain ⟨⟨⟨⟨h1, h2⟩, h3⟩, h4⟩, h5⟩ := hx
      have h4' : ∀ kv ∈ attrs, strStartsWith kv.2 ("$") = false ∧
          strStartsWith kv.2 ("@") = false := by
        intro kv hkv
        have := List.all_eq_true.mp h4 kv hkv
        simpa using this
      have hnm : ∀ t ∈ replacers, t.matchesFn name attrs ctx = false :=
        fun t ht => repo_matchesFn_false t (hrepo t ht) name attrs ctx h1 h3 h4'
      rw [walkLevel_cons_elem,
        tryReplacers_no_match name attrs children ctx replacers hnm, ih hrest]
      rfl
    | Text s =>
      rw [walkLevel_cons_nonelem _ _ _ _ (by rfl), ih hrest]
      rfl
    | RawHTML s =>
      rw [walkLevel_cons_nonelem _ _ _ _ (by rfl), ih hrest]
      rfl

theorem walkInto_clean (replacers : List (Transformer Context)) (ctx : Context)
    (fuel : Nat)
    (H : ∀ c : List Node, cleanNodes c = true → nodesDepth c < fuel →
      walk fuel replacers ctx c = some (.ok c)) :
    ∀ l : List Node, cleanNodes l = true → nodesDepth l ≤ fuel →
      walkInto fuel replacers ctx l = some (.ok l) := by
  intro l
  induction l with
  | nil => intro _ _; rw [walkInto]
  | cons x rest ih =>
    intro hc hd
    rw [cleanNodes] at hc
    simp only [Bool.and_eq_true] at hc
    obtain ⟨hx, hrest⟩ := hc
    rw [nodesDepth] at hd
    have hdx : nodeDepth x ≤ fuel := le_trans (le_max_left _ _) hd
    have hdrest : nodesDepth rest ≤ fuel := le_trans (le_max_right _ _) hd
    cases x with
    | Element name attrs children =>
      rw [cleanNode] at hx
      simp only [Bool.and_eq_true] at hx
      have hcch : cleanNodes children = true := hx.2
      have hdch : nodesDepth children < fuel := by
        rw [nodeDepth] at hdx
        omega
      rw [walkInto, H children hcch hdch, ih hrest hdrest]
    | Text s =>
      rw [walkInto_cons_nonelem_eq _ _ _ _ _ (by rfl), ih hrest hdrest]
    | RawHTML s =>
      rw [walkInto_cons_nonelem_eq _ _ _ _ _ (by rfl), ih hrest hdrest]

theorem walk_clean (replacers : List (Transformer Context))
    (hrepo : ∀ t ∈ replacers, RepoTransformer t) (ctx : Context) :
    ∀ fuel : Nat, ∀ dom : List Node, cleanNodes dom = true →
      nodesDepth dom < fuel →
      walk fuel replacers ctx dom = some (.ok dom) := by
  intro fuel
  induction fuel with
  | zero => intro dom _ hd; exact absurd hd (by omega)
  | succ fuel ih =>
    intro dom hclean hdepth
    rw [walk, walkLevel_clean replacers hrepo ctx dom hclean]
    exact walkInto_clean replacers ctx fuel ih dom hclean (by omega)

/-- C7: running `walk` with any list of this repository's transformers over
a tree that is already fully transformed — no Element whose tag name or
attribute value begins with `$` or `@` and no reserved tag names (`$`,
`katex`, `katex-prelude`, `code-hl`, `pre-hl`), recursively — succeeds
(within any fuel bound exceeding the tree depth) and returns the tree
structurally unchanged; since the output equals the input, re-running
`walk` is idempotent on such trees. -/
theorem C7_walk_noop_on_clean (replacers : List (Transformer Context))
    (ctx : Context) (dom : List Node) (fuel : Nat)
    (hrepo : ∀ t ∈ replacers, RepoTransformer t)
    (hclean : cleanNodes dom = true) (hfuel : nodesDepth dom < fuel) :
    walk fuel replacers ctx dom = some (.ok dom) :=
  walk_clean replacers hrepo ctx fuel dom hclean hfuel

def witVars : Transformer Context := VariableReplacer [(("name"), ("Alice"))]

def witLink : Transformer Context := LinkReplacer witDiff

def witKatex : Transformer Context := KatexReplacer ("0.11.1") witRender

def witSH : Transformer Context := SyntaxHighlighter witEnv [] ("InspiredGitHub")

theorem C7_walk_noop_on_clean_witness :
    walk 2 [witVars, witLink, witKatex, witSH] witCtx
      [Node.Element ("div") [(("class"), ("wide"))] [Node.Text ("hi")]] =
      some (.ok [Node.Element ("div") [(("class"), ("wide"))] [Node.Text ("hi")]]) := by
  apply C7_walk_noop_on_clean
  · intro t ht
    simp only [List.mem_cons, List.not_mem_nil, or_false] at ht
    rcases ht with rfl | rfl | rfl | rfl
    · exact Or.inl ⟨_, rfl⟩
    · exact Or.inr (Or.inl ⟨_, rfl⟩)
    · exact Or.inr (Or.inr (Or.inl ⟨_, _, rfl⟩))
    · exact Or.inr (Or.inr (Or.inr ⟨_, _, _, rfl⟩))
  · decide
  · decide

end Configurafox
